import Mathlib

/-
  Shallow embedding of `crates/core/src/host_component.rs` (spin).

  Modelling choices:
  * `Box<dyn Any + Send>` is modelled by `AnyBox`: a runtime type tag
    (`Nat`, standing for Rust's `TypeId`) paired with a payload (`Nat`,
    standing for the bit-content of the stored value).  `downcast_mut`
    is modelled by `AnyBox.downcast`, which succeeds exactly when the
    recorded tag matches the requested one.
  * A `HostComponent` implementation is modelled by its data type tag
    (`dataTag`, the `TypeId` of `HC::Data`), the payload produced by
    `build_data` (`buildData`), and the behaviour of its
    `add_to_linker` on the opaque external linker state (`addToLinker`).
    The external wasmtime `Linker` is out of scope for this crate and is
    modelled as an abstract state `Nat`; `add_to_linker` either returns
    an updated linker state or rejects the wiring with an error.
  * `&mut self` methods become state-passing functions; a Rust panic
    (out-of-range `Vec` index, failed `downcast_mut().unwrap()`) is
    modelled by returning `none`.
-/

namespace Spin

/-- Opaque external linker state (`wasmtime::Linker`), out of scope for
this crate and modelled abstractly. -/
abbrev Linker := Nat

/-- A type-erased boxed value, modelling `Box<dyn Any + Send>`: the
runtime type tag recorded by the box plus the stored payload. -/
structure AnyBox where
  tag : Nat
  val : Nat
deriving DecidableEq, Repr

/-- Models `<dyn Any>::downcast_mut::<T>()`: succeeds exactly when the
box's recorded type tag is the requested one. -/
def AnyBox.downcast (b : AnyBox) (t : Nat) : Option Nat :=
  if b.tag = t then some b.val else none

/-- One `HostComponent` implementation, as the builder sees it: the
`TypeId` of its associated `Data` type, the value `build_data` returns,
and what its `add_to_linker` does to the external linker state. -/
structure HostComponent where
  dataTag : Nat
  buildData : Nat
  addToLinker : Linker → Except String Linker

/-- `DynSafeHostComponent::build_data_box`: `Box::new(self.build_data())`,
an erased box whose tag is the provider's `Data` type. -/
def HostComponent.build_data_box (hc : HostComponent) : AnyBox :=
  ⟨hc.dataTag, hc.buildData⟩

/-- `HostComponentDataHandle<HC>`: the slot index plus the phantom type
parameter, represented by the tag of `HC::Data`. -/
structure HostComponentDataHandle where
  idx : Nat
  tag : Nat
deriving DecidableEq, Repr

/-- `AnyHostComponentDataHandle`: the slot index alone. -/
structure AnyHostComponentDataHandle where
  idx : Nat
deriving DecidableEq, Repr

/-- `impl From<HostComponentDataHandle<T>> for AnyHostComponentDataHandle`:
drops the type tag, keeping the index. -/
def AnyHostComponentDataHandle.from_typed
    (h : HostComponentDataHandle) : AnyHostComponentDataHandle :=
  ⟨h.idx⟩

/-- `HostComponentsBuilder`: the growing list of registered providers. -/
structure HostComponentsBuilder where
  host_components : List HostComponent

/-- `HostComponentsBuilder::default()`. -/
def HostComponentsBuilder.default : HostComponentsBuilder :=
  ⟨[]⟩

/-- `HostComponents`: the finalized registry. -/
structure HostComponents where
  host_components : List HostComponent

/-- `HostComponentsBuilder::add_host_component`.  The provider is pushed
first, then `HC::add_to_linker` runs; its error propagates via `?`.
Returns the updated builder (the `&mut self` state, retained even on
error) together with either the error or the new linker state and the
typed handle for the reserved index. -/
def HostComponentsBuilder.add_host_component
    (b : HostComponentsBuilder) (linker : Linker) (hc : HostComponent) :
    HostComponentsBuilder × Except String (Linker × HostComponentDataHandle) :=
  let idx := b.host_components.length
  let b' : HostComponentsBuilder := ⟨b.host_components ++ [hc]⟩
  match hc.addToLinker linker with
  | .error e => (b', .error e)
  | .ok linker' => (b', .ok (linker', ⟨idx, hc.dataTag⟩))

/-- `HostComponentsBuilder::build`: wraps the provider list, consuming
the builder. -/
def HostComponentsBuilder.build (b : HostComponentsBuilder) : HostComponents :=
  ⟨b.host_components⟩

/-- `HostComponentsData`: the per-instance store, a slot vector of
optional erased boxes plus the shared provider list. -/
structure HostComponentsData where
  data : List (Option AnyBox)
  host_components : List HostComponent

/-- `HostComponents::new_data`: a store whose slot vector has one `None`
per registered provider. -/
def HostComponents.new_data (hcs : HostComponents) : HostComponentsData :=
  ⟨List.replicate hcs.host_components.length none, hcs.host_components⟩

/-- `HostComponentsData::set`: `self.data[handle.idx] = Some(Box::new(data))`.
The stored box's tag is the handle's `HC::Data` tag, since `set` only
accepts a value of that type.  `none` models the panic on an
out-of-range index. -/
def HostComponentsData.set (d : HostComponentsData)
    (h : HostComponentDataHandle) (v : Nat) : Option HostComponentsData :=
  if h.idx < d.data.length then
    some ⟨d.data.set h.idx (some ⟨h.tag, v⟩), d.host_components⟩
  else
    none

/-- `HostComponentsData::get_or_insert_idx`:
`self.data[idx].get_or_insert_with(|| self.host_components[idx].build_data_box())`.
Returns the (possibly freshly inserted) box and the updated store;
`none` models the panic when either index is out of range. -/
def HostComponentsData.get_or_insert_idx (d : HostComponentsData)
    (idx : Nat) : Option (AnyBox × HostComponentsData) :=
  match d.data[idx]? with
  | none => none
  | some (some b) => some (b, d)
  | some none =>
    match d.host_components[idx]? with
    | none => none
    | some hc =>
      some (hc.build_data_box,
        ⟨d.data.set idx (some hc.build_data_box), d.host_components⟩)

/-- `HostComponentsData::get_or_insert`: `get_or_insert_idx` followed by
`downcast_mut().unwrap()`; `none` also models the unwrap panic. -/
def HostComponentsData.get_or_insert (d : HostComponentsData)
    (h : HostComponentDataHandle) : Option (Nat × HostComponentsData) :=
  match d.get_or_insert_idx h.idx with
  | none => none
  | some (b, d') =>
    match b.downcast h.tag with
    | none => none
    | some v => some (v, d')

/-- `HostComponentsData::get_or_insert_any`: `get_or_insert_idx` on the
erased handle's index, returning the erased box. -/
def HostComponentsData.get_or_insert_any (d : HostComponentsData)
    (h : AnyHostComponentDataHandle) : Option (AnyBox × HostComponentsData) :=
  d.get_or_insert_idx h.idx

/-- Validity of a typed handle relative to a provider list: its index
names a registered provider whose `Data` tag is the handle's tag.  This
is exactly the shape of the handles `add_host_component` returns. -/
def ValidHandle (reg : List HostComponent) (h : HostComponentDataHandle) : Prop :=
  match reg[h.idx]? with
  | some hc => h.tag = hc.dataTag
  | none => False

/-- The slot-typing invariant: every non-empty slot holds a box whose
runtime tag is the `Data` tag of the provider registered at the same
index. -/
def TypeInv (d : HostComponentsData) : Prop :=
  ∀ (i : Nat) (b : AnyBox), d.data[i]? = some (some b) →
    ∃ hc : HostComponent, d.host_components[i]? = some hc ∧ b.tag = hc.dataTag

/-- Store states reachable from `new_data` through the public API:
`set` with a valid typed handle, lazy initialization by any of the
`get_or_insert` operations, and mutation of a slot's payload through a
returned `&mut HC::Data` reference (which can change the stored value
but not the box's runtime type). -/
inductive Reachable (hcs : HostComponents) : HostComponentsData → Prop
  | init : Reachable hcs hcs.new_data
  | set {d d' : HostComponentsData} {h : HostComponentDataHandle} {v : Nat} :
      Reachable hcs d → ValidHandle hcs.host_components h →
      d.set h v = some d' → Reachable hcs d'
  | lazy {d : HostComponentsData} {i : Nat} {b : AnyBox}
      {d' : HostComponentsData} :
      Reachable hcs d → d.get_or_insert_idx i = some (b, d') →
      Reachable hcs d'
  | mutate {d : HostComponentsData} {i : Nat} {b : AnyBox} (v : Nat) :
      Reachable hcs d → d.data[i]? = some (some b) →
      Reachable hcs ⟨d.data.set i (some ⟨b.tag, v⟩), d.host_components⟩

theorem set_eq_some {d d' : HostComponentsData} {h : HostComponentDataHandle}
    {v : Nat} (hs : d.set h v = some d') :
    h.idx < d.data.length ∧
    d' = ⟨d.data.set h.idx (some ⟨h.tag, v⟩), d.host_components⟩ := by
  by_cases hlt : h.idx < d.data.length
  · simp only [HostComponentsData.set, if_pos hlt, Option.some.injEq] at hs
    exact ⟨hlt, hs.symm⟩
  · simp [HostComponentsData.set, if_neg hlt] at hs

theorem get_or_insert_idx_inv {d : HostComponentsData} {i : Nat}
    {b : AnyBox} {d' : HostComponentsData}
    (hg : d.get_or_insert_idx i = some (b, d')) :
    (d.data[i]? = some (some b) ∧ d' = d) ∨
    (d.data[i]? = some none ∧ ∃ hc, d.host_components[i]? = some hc ∧
      b = hc.build_data_box ∧
      d' = ⟨d.data.set i (some hc.build_data_box), d.host_components⟩) := by
  unfold HostComponentsData.get_or_insert_idx at hg
  split at hg
  · exact absurd hg (by simp)
  · next b0 heq =>
    simp only [Option.some.injEq, Prod.mk.injEq] at hg
    exact Or.inl ⟨hg.1 ▸ heq, hg.2.symm⟩
  · next heq =>
    split at hg
    · exact absurd hg (by simp)
    · next hc hhc =>
      simp only [Option.some.injEq, Prod.mk.injEq] at hg
      exact Or.inr ⟨heq, hc, hhc, hg.1.symm, hg.2.symm⟩

theorem get_or_insert_idx_hcs {d : HostComponentsData} {i : Nat}
    {b : AnyBox} {d' : HostComponentsData}
    (hg : d.get_or_insert_idx i = some (b, d')) :
    d'.host_components = d.host_components := by
  rcases get_or_insert_idx_inv hg with ⟨_, rfl⟩ | ⟨_, hc, _, _, rfl⟩ <;> rfl

theorem get_or_insert_idx_length {d : HostComponentsData} {i : Nat}
    {b : AnyBox} {d' : HostComponentsData}
    (hg : d.get_or_insert_idx i = some (b, d')) :
    d'.data.length = d.data.length := by
  rcases get_or_insert_idx_inv hg with ⟨_, rfl⟩ | ⟨_, hc, _, _, rfl⟩
  · rfl
  · simp [List.length_set]

theorem get_or_insert_idx_slot {d : HostComponentsData} {i : Nat}
    {b : AnyBox} {d' : HostComponentsData}
    (hg : d.get_or_insert_idx i = some (b, d')) :
    d'.data[i]? = some (some b) := by
  rcases get_or_insert_idx_inv hg with ⟨hb, rfl⟩ | ⟨hb, hc, hhc, rfl, rfl⟩
  · exact hb
  · have hlt : i < d.data.length := by
      rcases Nat.lt_or_ge i d.data.length with h | h
      · exact h
      · rw [List.getElem?_eq_none h] at hb; cases hb
    simpa using List.getElem?_set_eq_of_lt (some hc.build_data_box) hlt

theorem get_or_insert_idx_frame {d : HostComponentsData} {i : Nat}
    {b : AnyBox} {d' : HostComponentsData}
    (hg : d.get_or_insert_idx i = some (b, d')) {j : Nat} (hj : j ≠ i) :
    d'.data[j]? = d.data[j]? := by
  rcases get_or_insert_idx_inv hg with ⟨_, rfl⟩ | ⟨_, hc, _, _, rfl⟩
  · rfl
  · simpa using List.getElem?_set_ne (Ne.symm hj)

theorem reachable_hcs {hcs : HostComponents} {d : HostComponentsData}
    (hr : Reachable hcs d) : d.host_components = hcs.host_components := by
  induction hr with
  | init => rfl
  | set hr hv hs ih => obtain ⟨_, rfl⟩ := set_eq_some hs; exact ih
  | lazy hr hg ih => rw [get_or_insert_idx_hcs hg]; exact ih
  | mutate v hr hb ih => exact ih

theorem reachable_length {hcs : HostComponents} {d : HostComponentsData}
    (hr : Reachable hcs d) : d.data.length = hcs.host_components.length := by
  induction hr with
  | init => simp [HostComponents.new_data]
  | set hr hv hs ih =>
    obtain ⟨_, rfl⟩ := set_eq_some hs
    simpa [List.length_set] using ih
  | lazy hr hg ih => rw [get_or_insert_idx_length hg]; exact ih
  | mutate v hr hb ih => simpa [List.length_set] using ih

theorem lt_of_getElem?_some {α : Type _} {l : List α} {i : Nat} {a : α}
    (h : l[i]? = some a) : i < l.length := by
  rcases Nat.lt_or_ge i l.length with h' | h'
  · exact h'
  · rw [List.getElem?_eq_none h'] at h; cases h

theorem validHandle_elim {reg : List HostComponent}
    {h : HostComponentDataHandle} (hv : ValidHandle reg h) :
    ∃ hc, reg[h.idx]? = some hc ∧ h.tag = hc.dataTag := by
  unfold ValidHandle at hv
  split at hv
  · exact ⟨_, ‹_›, hv⟩
  · exact absurd hv not_false

theorem validHandle_intro {reg : List HostComponent}
    {h : HostComponentDataHandle} {hc : HostComponent}
    (h1 : reg[h.idx]? = some hc) (h2 : h.tag = hc.dataTag) :
    ValidHandle reg h := by
  unfold ValidHandle
  rw [h1]
  exact h2

theorem reachable_typeInv {hcs : HostComponents} {d : HostComponentsData}
    (hr : Reachable hcs d) : TypeInv d := by
  induction hr with
  | init =>
    unfold TypeInv
    intro i b hb
    simp only [HostComponents.new_data, List.getElem?_replicate] at hb
    split at hb <;> simp_all
  | @set d d' h v hr hv hs ih =>
    obtain ⟨hlt, rfl⟩ := set_eq_some hs
    unfold TypeInv
    intro i b hb
    dsimp only at hb ⊢
    by_cases hij : i = h.idx
    · subst hij
      rw [List.getElem?_set_eq_of_lt _ hlt] at hb
      obtain ⟨hc, hhc, htag⟩ := validHandle_elim hv
      have hhc' : d.host_components[h.idx]? = some hc := by
        rw [reachable_hcs hr]; exact hhc
      cases hb
      exact ⟨hc, hhc', htag⟩
    · rw [List.getElem?_set_ne (Ne.symm hij)] at hb
      exact ih i b hb
  | @lazy d i0 b0 d' hr hg ih =>
    rcases get_or_insert_idx_inv hg with ⟨hb0, rfl⟩ | ⟨hb0, hc, hhc, rfl, rfl⟩
    · exact ih
    · unfold TypeInv
      intro i b hb
      dsimp only at hb ⊢
      by_cases hij : i = i0
      · subst hij
        have hlt := lt_of_getElem?_some hb0
        rw [List.getElem?_set_eq_of_lt _ hlt] at hb
        cases hb
        exact ⟨hc, hhc, rfl⟩
      · rw [List.getElem?_set_ne (Ne.symm hij)] at hb
        exact ih i b hb
  | @mutate d i0 b0 v hr hb0 ih =>
    unfold TypeInv
    intro i b hb
    dsimp only at hb ⊢
    by_cases hij : i = i0
    · subst hij
      have hlt := lt_of_getElem?_some hb0
      rw [List.getElem?_set_eq_of_lt _ hlt] at hb
      obtain ⟨hc, hhc, htag⟩ := ih _ _ hb0
      cases hb
      exact ⟨hc, hhc, htag⟩
    · rw [List.getElem?_set_ne (Ne.symm hij)] at hb
      exact ih i b hb

/-- On a store paired with its own registry, `get_or_insert` succeeds
(no index panic, and the internal downcast cannot fail) for every
handle shape the registry hands out. -/
theorem get_or_insert_isSome {hcs : HostComponents} {d : HostComponentsData}
    (hr : Reachable hcs d) {h : HostComponentDataHandle}
    (hv : ValidHandle hcs.host_components h) :
    (d.get_or_insert h).isSome := by
  obtain ⟨hc, hhc, htag⟩ := validHandle_elim hv
  have hhcd : d.host_components[h.idx]? = some hc := by
    rw [reachable_hcs hr]; exact hhc
  have hlt : h.idx < d.data.length := by
    rw [reachable_length hr]; exact lt_of_getElem?_some hhc
  obtain ⟨o, ho⟩ : ∃ o, d.data[h.idx]? = some o :=
    ⟨_, List.getElem?_eq_getElem hlt⟩
  cases o with
  | none =>
    simp [HostComponentsData.get_or_insert,
      HostComponentsData.get_or_insert_idx, ho, hhcd, AnyBox.downcast,
      HostComponent.build_data_box, htag]
  | some b =>
    obtain ⟨hc', hhc', htag'⟩ := reachable_typeInv hr _ _ ho
    rw [hhcd] at hhc'
    injection hhc' with hh
    subst hh
    simp [HostComponentsData.get_or_insert,
      HostComponentsData.get_or_insert_idx, ho, AnyBox.downcast, htag, htag']

theorem set_isSome {d : HostComponentsData} {h : HostComponentDataHandle}
    (hlt : h.idx < d.data.length) (v : Nat) : (d.set h v).isSome := by
  simp [HostComponentsData.set, hlt]

theorem set_out_of_range {d : HostComponentsData}
    {h : HostComponentDataHandle} (hge : d.data.length ≤ h.idx) (v : Nat) :
    d.set h v = none := by
  simp [HostComponentsData.set, Nat.not_lt.mpr hge]

theorem get_or_insert_idx_out_of_range {d : HostComponentsData} {i : Nat}
    (hge : d.data.length ≤ i) : d.get_or_insert_idx i = none := by
  unfold HostComponentsData.get_or_insert_idx
  rw [List.getElem?_eq_none hge]

theorem get_or_insert_out_of_range {d : HostComponentsData}
    {h : HostComponentDataHandle} (hge : d.data.length ≤ h.idx) :
    d.get_or_insert h = none := by
  unfold HostComponentsData.get_or_insert
  rw [get_or_insert_idx_out_of_range hge]

theorem get_or_insert_any_out_of_range {d : HostComponentsData}
    {h : AnyHostComponentDataHandle} (hge : d.data.length ≤ h.idx) :
    d.get_or_insert_any h = none := by
  unfold HostComponentsData.get_or_insert_any
  exact get_or_insert_idx_out_of_range hge

/-- The concrete scenario of spec section 8: a `Counter` provider
(integer state, default 0) and a `Flag` provider (boolean state,
default false, payload 0), both accepted by the linker. -/
def counterHC : HostComponent := ⟨0, 0, fun l => .ok l⟩

def flagHC : HostComponent := ⟨1, 0, fun l => .ok l⟩

/-- A provider whose interface wiring the external linker rejects
(e.g. a naming collision in the guest-visible namespace). -/
def failHC : HostComponent := ⟨2, 5, fun _ => .error "duplicate name"⟩

def exampleRegistry : HostComponents := ⟨[counterHC, flagHC]⟩

def counterHandle : HostComponentDataHandle := ⟨0, 0⟩

def flagHandle : HostComponentDataHandle := ⟨1, 1⟩

theorem add_host_component_eq (b : HostComponentsBuilder) (linker : Linker)
    (hc : HostComponent) :
    b.add_host_component linker hc =
      (⟨b.host_components ++ [hc]⟩,
        match hc.addToLinker linker with
        | .error e => .error e
        | .ok linker' =>
            .ok (linker', ⟨b.host_components.length, hc.dataTag⟩)) := by
  unfold HostComponentsBuilder.add_host_component
  cases hc.addToLinker linker <;> rfl

/-- C8: `new_data` returns a store whose slot vector has exactly one
entry per registered provider, with every slot empty; the result is a
pure function of the (unchanged) registry, so repeated calls each
yield such a fresh store. -/
theorem new_data_spec (hcs : HostComponents) :
    (hcs.new_data).data = List.replicate hcs.host_components.length none ∧
    (hcs.new_data).data.length = hcs.host_components.length ∧
    (∀ i, i < hcs.host_components.length →
      (hcs.new_data).data[i]? = some none) ∧
    (hcs.new_data).host_components = hcs.host_components := by
  refine ⟨rfl, by simp [HostComponents.new_data], ?_, rfl⟩
  intro i hi
  simp [HostComponents.new_data, List.getElem?_replicate, hi]

theorem new_data_spec_witness :
    (exampleRegistry.new_data).data[0]? = some none :=
  (new_data_spec exampleRegistry).2.2.1 0 (by decide)

/-- C9: `add_host_component` appends exactly one provider per call and
assigns the slot index equal to the number of providers previously
appended (so the k-th call, counting from zero over all calls, assigns
index k); on success the returned handle carries that index and tag,
and the index keeps naming the registered provider in the registry
`build()` produces, also after any later registrations. -/
theorem add_host_component_index_spec (b : HostComponentsBuilder)
    (linker : Linker) (hc : HostComponent) :
    (b.add_host_component linker hc).1.host_components
      = b.host_components ++ [hc] ∧
    (∀ linker' h, (b.add_host_component linker hc).2 = .ok (linker', h) →
      h.idx = b.host_components.length ∧ h.tag = hc.dataTag ∧
      (∀ later : List HostComponent,
        (HostComponentsBuilder.build
          ⟨(b.add_host_component linker hc).1.host_components ++ later⟩
          ).host_components[h.idx]? = some hc)) := by
  rw [add_host_component_eq]
  refine ⟨rfl, ?_⟩
  intro linker' h hok
  dsimp only at hok
  cases hr : hc.addToLinker linker with
  | error e => rw [hr] at hok; cases hok
  | ok l' =>
    rw [hr] at hok
    injection hok with hok
    injection hok with h1 h2
    subst h2
    refine ⟨rfl, rfl, ?_⟩
    intro later
    show ((b.host_components ++ [hc]) ++ later)[b.host_components.length]?
      = some hc
    rw [List.getElem?_append_left (by simp), List.getElem?_concat_length]

theorem add_host_component_index_spec_witness :
    ∃ h, ((HostComponentsBuilder.default.add_host_component 0 counterHC).2
        = Except.ok ((0 : Linker), h)) ∧ h.idx = 0 ∧
      (HostComponentsBuilder.default.add_host_component 0 counterHC
        ).1.build.host_components[h.idx]? = some counterHC := by
  have hok : (HostComponentsBuilder.default.add_host_component 0 counterHC).2
      = Except.ok ((0 : Linker), (⟨0, 0⟩ : HostComponentDataHandle)) := rfl
  obtain ⟨h1, h2, h3⟩ :=
    (add_host_component_index_spec HostComponentsBuilder.default 0 counterHC
      ).2 0 ⟨0, 0⟩ hok
  exact ⟨⟨0, 0⟩, hok, h1, by simpa using h3 []⟩

/-- C4: `set(h, v)` overwrites the slot at the handle's index with `v`
(replacing whatever was there, including a lazily-initialized default),
leaves every other slot and the provider list unchanged, and the next
`get_or_insert(h)` on the resulting store returns `v`, not the
provider's default. -/
theorem set_overrides_spec {d d' : HostComponentsData}
    {h : HostComponentDataHandle} {v : Nat} (hs : d.set h v = some d') :
    d'.data[h.idx]? = some (some ⟨h.tag, v⟩) ∧
    (∀ j, j ≠ h.idx → d'.data[j]? = d.data[j]?) ∧
    d'.host_components = d.host_components ∧
    d'.get_or_insert h = some (v, d') := by
  obtain ⟨hlt, rfl⟩ := set_eq_some hs
  have hslot : (d.data.set h.idx (some ⟨h.tag, v⟩))[h.idx]?
      = some (some ⟨h.tag, v⟩) := List.getElem?_set_eq_of_lt _ hlt
  refine ⟨hslot, ?_, rfl, ?_⟩
  · intro j hj
    exact List.getElem?_set_ne (Ne.symm hj)
  · simp [HostComponentsData.get_or_insert,
      HostComponentsData.get_or_insert_idx, hslot, AnyBox.downcast]

theorem set_overrides_spec_witness :
    (exampleRegistry.new_data).set counterHandle 5
      = some ⟨[some ⟨0, 5⟩, none], exampleRegistry.host_components⟩ ∧
    HostComponentsData.get_or_insert
        ⟨[some ⟨0, 5⟩, none], exampleRegistry.host_components⟩ counterHandle
      = some (5, ⟨[some ⟨0, 5⟩, none], exampleRegistry.host_components⟩) := by
  have hset : (exampleRegistry.new_data).set counterHandle 5
      = some ⟨[some ⟨0, 5⟩, none], exampleRegistry.host_components⟩ := rfl
  exact ⟨hset, (set_overrides_spec hset).2.2.2⟩

/-- C5: erasing a typed handle keeps the index, the erased accessor
reads and updates exactly the same slot as `get_or_insert_idx` at that
index, and whenever the erased access yields a box, the typed access on
the same store is exactly that box downcast at the handle's type
(identical value, identical updated store). -/
theorem erase_round_trip (d : HostComponentsData)
    (h : HostComponentDataHandle) :
    (AnyHostComponentDataHandle.from_typed h).idx = h.idx ∧
    d.get_or_insert_any (AnyHostComponentDataHandle.from_typed h)
      = d.get_or_insert_idx h.idx ∧
    (∀ b d',
      d.get_or_insert_any (AnyHostComponentDataHandle.from_typed h)
        = some (b, d') →
      d.get_or_insert h = (b.downcast h.tag).map fun v => (v, d')) := by
  refine ⟨rfl, rfl, ?_⟩
  intro b d' hany
  have hidx : d.get_or_insert_idx h.idx = some (b, d') := hany
  unfold HostComponentsData.get_or_insert
  rw [hidx]
  show (match b.downcast h.tag with
    | none => none
    | some v => some (v, d')) = (b.downcast h.tag).map fun v => (v, d')
  cases b.downcast h.tag <;> rfl

theorem erase_round_trip_witness :
    (exampleRegistry.new_data).get_or_insert counterHandle
      = ((⟨0, 0⟩ : AnyBox).downcast counterHandle.tag).map
          (fun v => (v,
            (⟨[some ⟨0, 0⟩, none], exampleRegistry.host_components⟩ :
              HostComponentsData))) :=
  (erase_round_trip exampleRegistry.new_data counterHandle).2.2
    ⟨0, 0⟩ ⟨[some ⟨0, 0⟩, none], exampleRegistry.host_components⟩ rfl

/-- C6: with an index at or beyond the slot count, each of `set`,
`get_or_insert` and `get_or_insert_any` panics (modelled `none`) rather
than returning a recoverable error or a silent default; for a store
reachable from its own registry and a handle that registry issued (so
its index is in range and its tag matches), none of the three
operations panics. -/
theorem access_bounds_spec (hcs : HostComponents) (d : HostComponentsData)
    (hr : Reachable hcs d) (h : HostComponentDataHandle) :
    (d.data.length ≤ h.idx →
      (∀ v, d.set h v = none) ∧ d.get_or_insert h = none ∧
      d.get_or_insert_any (AnyHostComponentDataHandle.from_typed h)
        = none) ∧
    (ValidHandle hcs.host_components h →
      h.idx < d.data.length ∧
      (∀ v, (d.set h v).isSome) ∧ (d.get_or_insert h).isSome ∧
      (d.get_or_insert_any
        (AnyHostComponentDataHandle.from_typed h)).isSome) := by
  constructor
  · intro hge
    exact ⟨fun v => set_out_of_range hge v, get_or_insert_out_of_range hge,
      get_or_insert_any_out_of_range hge⟩
  · intro hv
    obtain ⟨hc, hhc, htag⟩ := validHandle_elim hv
    have hlt : h.idx < d.data.length := by
      rw [reachable_length hr]; exact lt_of_getElem?_some hhc
    refine ⟨hlt, fun v => set_isSome hlt v, get_or_insert_isSome hr hv, ?_⟩
    have hgi := get_or_insert_isSome hr hv
    unfold HostComponentsData.get_or_insert at hgi
    unfold HostComponentsData.get_or_insert_any
    show (d.get_or_insert_idx h.idx).isSome
    cases hidx : d.get_or_insert_idx h.idx with
    | none => rw [hidx] at hgi; simp at hgi
    | some p => rfl

theorem access_bounds_spec_witness :
    ((exampleRegistry.new_data).get_or_insert ⟨5, 0⟩ = none) ∧
    ((exampleRegistry.new_data).get_or_insert counterHandle).isSome := by
  constructor
  · exact (access_bounds_spec exampleRegistry exampleRegistry.new_data
      Reachable.init ⟨5, 0⟩).1 (by simp [HostComponents.new_data,
        exampleRegistry]) |>.2.1
  · exact ((access_bounds_spec exampleRegistry exampleRegistry.new_data
      Reachable.init counterHandle).2
        (@validHandle_intro _ _ counterHC rfl rfl)).2.2.1

/-- C10: when the linker rejects the wiring, the provider has already
been appended: the registry built afterwards counts it, a fresh store
has a slot for it, and erased access at that slot's index lazily
initializes it with the failed provider's `build_data`. -/
theorem failed_registration_counted (b : HostComponentsBuilder)
    (linker : Linker) (hc : HostComponent) (e : String)
    (hfail : hc.addToLinker linker = .error e) :
    (b.add_host_component linker hc).2 = .error e ∧
    (b.add_host_component linker hc).1.host_components.length
      = b.host_components.length + 1 ∧
    ((b.add_host_component linker hc).1.build.new_data).data.length
      = b.host_components.length + 1 ∧
    ((b.add_host_component linker hc).1.build.new_data).get_or_insert_any
        ⟨b.host_components.length⟩
      = some (hc.build_data_box,
          ⟨((b.add_host_component linker hc).1.build.new_data).data.set
              b.host_components.length (some hc.build_data_box),
            b.host_components ++ [hc]⟩) := by
  rw [add_host_component_eq, hfail]
  refine ⟨rfl, by simp, by simp [HostComponentsBuilder.build,
    HostComponents.new_data], ?_⟩
  have hlen : (b.host_components ++ [hc]).length
      = b.host_components.length + 1 := by simp
  have hslot : (List.replicate (b.host_components ++ [hc]).length
      (none : Option AnyBox))[b.host_components.length]? = some none := by
    rw [List.getElem?_replicate]
    simp
  have hhc : (b.host_components ++ [hc])[b.host_components.length]? = some hc :=
    List.getElem?_concat_length _ _
  simp only [HostComponentsData.get_or_insert_any, HostComponentsBuilder.build,
    HostComponents.new_data, HostComponentsData.get_or_insert_idx, hslot, hhc]

theorem failed_registration_counted_witness :
    (HostComponentsBuilder.default.add_host_component 0 failHC
      ).1.host_components.length = 1 ∧
    ((HostComponentsBuilder.default.add_host_component 0 failHC
      ).1.build.new_data).get_or_insert_any ⟨0⟩
      = some (failHC.build_data_box,
          ⟨((HostComponentsBuilder.default.add_host_component 0 failHC
            ).1.build.new_data).data.set 0 (some failHC.build_data_box),
            HostComponentsBuilder.default.host_components ++ [failHC]⟩) := by
  obtain ⟨h1, h2, h3, h4⟩ := failed_registration_counted
    HostComponentsBuilder.default 0 failHC "duplicate name" rfl
  exact ⟨h2, h4⟩

/-- C3 counterexample: a failed registration does change what
subsequent registrations and `build()` observe — registering the same
provider on a fresh builder yields index 0, but after a failed
registration it yields index 1, and `build()` after the failure already
contains one provider. -/
theorem failed_registration_observable :
    (HostComponentsBuilder.default.add_host_component 0 failHC).2
      = .error "duplicate name" ∧
    (HostComponentsBuilder.default.add_host_component 0 counterHC).2
      = .ok ((0 : Linker), (⟨0, 0⟩ : HostComponentDataHandle)) ∧
    ((HostComponentsBuilder.default.add_host_component 0 failHC
      ).1.add_host_component 0 counterHC).2
      = .ok ((0 : Linker), (⟨1, 0⟩ : HostComponentDataHandle)) ∧
    (HostComponentsBuilder.default.add_host_component 0 failHC
      ).1.build.host_components.length = 1 :=
  ⟨rfl, rfl, rfl, rfl⟩

/-- C3 amended: when the linker rejects the wiring, the error is
returned to the caller unchanged, and the builder's state change is
exactly that the failed provider keeps its reserved slot at the end of
the list (so later registrations see indices shifted by one and
`build()` includes the failed provider). -/
theorem registration_error_propagates (b : HostComponentsBuilder)
    (linker : Linker) (hc : HostComponent) (e : String)
    (hfail : hc.addToLinker linker = .error e) :
    b.add_host_component linker hc
      = (⟨b.host_components ++ [hc]⟩, .error e) := by
  rw [add_host_component_eq, hfail]

theorem registration_error_propagates_witness :
    HostComponentsBuilder.default.add_host_component 0 failHC
      = (⟨HostComponentsBuilder.default.host_components ++ [failHC]⟩,
          .error "duplicate name") :=
  registration_error_propagates HostComponentsBuilder.default 0 failHC
    "duplicate name" rfl

/-- C1: for a handle obtained by registering provider P (its index
names P in the registry, its tag is P's Data tag): on any reachable
store whose slot is still unset, `get_or_insert` returns P's
`build_data` and fills the slot with it; on any reachable store whose
slot is already occupied, `get_or_insert` returns exactly the value
currently in the slot (possibly mutated) and leaves the store
unchanged — never a fresh default. -/
theorem get_or_insert_lazy_spec (hcs : HostComponents) (P : HostComponent)
    (h : HostComponentDataHandle)
    (hP : hcs.host_components[h.idx]? = some P)
    (htag : h.tag = P.dataTag) :
    (∀ d, Reachable hcs d → d.data[h.idx]? = some none →
      d.get_or_insert h = some (P.buildData,
        ⟨d.data.set h.idx (some P.build_data_box), d.host_components⟩)) ∧
    (∀ d b, Reachable hcs d → d.data[h.idx]? = some (some b) →
      d.get_or_insert h = some (b.val, d)) := by
  constructor
  · intro d hr hslot
    have hhcd : d.host_components[h.idx]? = some P := by
      rw [reachable_hcs hr]; exact hP
    simp [HostComponentsData.get_or_insert,
      HostComponentsData.get_or_insert_idx, hslot, hhcd,
      HostComponent.build_data_box, AnyBox.downcast, htag]
  · intro d b hr hslot
    obtain ⟨hc', hhc', htag'⟩ := reachable_typeInv hr _ _ hslot
    have hhcd : d.host_components[h.idx]? = some P := by
      rw [reachable_hcs hr]; exact hP
    rw [hhcd] at hhc'
    injection hhc' with hh
    subst hh
    simp [HostComponentsData.get_or_insert,
      HostComponentsData.get_or_insert_idx, hslot, AnyBox.downcast,
      htag, htag']

theorem get_or_insert_lazy_spec_witness :
    (exampleRegistry.new_data).get_or_insert counterHandle
      = some (counterHC.buildData,
          ⟨(exampleRegistry.new_data).data.set 0
              (some counterHC.build_data_box),
            (exampleRegistry.new_data).host_components⟩) :=
  (get_or_insert_lazy_spec exampleRegistry counterHC counterHandle rfl rfl).1
    exampleRegistry.new_data Reachable.init rfl

/-- C2: every store state reachable from its registry through the
public API (fresh `new_data`, `set` with registry-issued typed handles,
lazy initialization, mutation through returned references) satisfies
the slot-typing invariant — each occupied slot holds exactly the Data
type of the provider registered at the same index — and consequently
the internal downcast of `get_or_insert` never fails for a handle the
registry issued. -/
theorem type_invariant_spec (hcs : HostComponents) (d : HostComponentsData)
    (hr : Reachable hcs d) :
    TypeInv d ∧
    ∀ h, ValidHandle hcs.host_components h → (d.get_or_insert h).isSome :=
  ⟨reachable_typeInv hr, fun _ hv => get_or_insert_isSome hr hv⟩

theorem type_invariant_spec_witness :
    ((exampleRegistry.new_data).get_or_insert flagHandle).isSome :=
  (type_invariant_spec exampleRegistry exampleRegistry.new_data
    Reachable.init).2 flagHandle (@validHandle_intro _ _ flagHC rfl rfl)

/-- One public-API action on a single instance's store: `set` through a
typed handle, typed or erased lazy access, or writing a payload through
a previously returned `&mut` reference into slot `i`. -/
inductive StoreOp where
  | setOp (h : HostComponentDataHandle) (v : Nat)
  | getOrInsertOp (h : HostComponentDataHandle)
  | getOrInsertAnyOp (h : AnyHostComponentDataHandle)
  | mutateOp (i : Nat) (v : Nat)

/-- Runs one action against a store; `none` models a panic. -/
def applyOp (d : HostComponentsData) : StoreOp → Option HostComponentsData
  | .setOp h v => d.set h v
  | .getOrInsertOp h => (d.get_or_insert h).map Prod.snd
  | .getOrInsertAnyOp h => (d.get_or_insert_any h).map Prod.snd
  | .mutateOp i v =>
    match d.data[i]? with
    | some (some b) =>
        some ⟨d.data.set i (some ⟨b.tag, v⟩), d.host_components⟩
    | _ => none

/-- Runs one action against the store of instance `k` in a world of
per-instance stores; each action touches only that instance's store. -/
def applyOpAt (w : List HostComponentsData) (k : Nat) (op : StoreOp) :
    Option (List HostComponentsData) :=
  match w[k]? with
  | none => none
  | some d =>
    match applyOp d op with
    | none => none
    | some d' => some (w.set k d')

/-- Runs a sequence of actions, all against instance `k`'s store. -/
def applyOpsAt (w : List HostComponentsData) (k : Nat) :
    List StoreOp → Option (List HostComponentsData)
  | [] => some w
  | op :: ops =>
    match applyOpAt w k op with
    | none => none
    | some w' => applyOpsAt w' k ops

theorem applyOpAt_frame {w w' : List HostComponentsData} {k : Nat}
    {op : StoreOp} (happ : applyOpAt w k op = some w') {j : Nat}
    (hj : j ≠ k) : w'[j]? = w[j]? := by
  unfold applyOpAt at happ
  split at happ
  · cases happ
  · next d hd =>
    split at happ
    · cases happ
    · next d' hd' =>
      injection happ with happ
      subst happ
      exact List.getElem?_set_ne (Ne.symm hj)

theorem applyOpsAt_frame {w w' : List HostComponentsData} {k : Nat}
    {ops : List StoreOp} (happ : applyOpsAt w k ops = some w') {j : Nat}
    (hj : j ≠ k) : w'[j]? = w[j]? := by
  induction ops generalizing w with
  | nil =>
    unfold applyOpsAt at happ
    injection happ with happ
    subst happ
    rfl
  | cons op ops ih =>
    unfold applyOpsAt at happ
    split at happ
    · cases happ
    · next w1 hw1 =>
      rw [ih happ, applyOpAt_frame hw1 hj]

/-- C7: in a world holding two stores created by separate `new_data`
calls on the same registry, any sequence of `set` / `get_or_insert` /
reference-mutation actions applied entirely to one of the two stores
leaves the other store exactly in its fresh state; stores are fully
isolated per instance. -/
theorem store_isolation (hcs : HostComponents) (ops : List StoreOp)
    (k j : Nat) (w' : List HostComponentsData) (_hk : k < 2) (hj : j < 2)
    (hjk : j ≠ k)
    (happ : applyOpsAt [hcs.new_data, hcs.new_data] k ops = some w') :
    w'[j]? = some hcs.new_data := by
  rw [applyOpsAt_frame happ hjk]
  interval_cases j <;> rfl

theorem store_isolation_witness :
    ∃ w', applyOpsAt [exampleRegistry.new_data, exampleRegistry.new_data] 0
        [StoreOp.setOp counterHandle 5, StoreOp.getOrInsertOp flagHandle]
      = some w' ∧ w'[1]? = some exampleRegistry.new_data := by
  refine ⟨[⟨[some ⟨0, 5⟩, some ⟨1, 0⟩], exampleRegistry.host_components⟩,
    exampleRegistry.new_data], ?_, ?_⟩
  · rfl
  · exact store_isolation exampleRegistry
      [StoreOp.setOp counterHandle 5, StoreOp.getOrInsertOp flagHandle]
      0 1 _ (by decide) (by decide) (by decide) rfl

end Spin
